import Mathlib

/-!
# Verification of the JK-BMS protocol engine

Shallow embedding of the protocol core of the `jk-tool` application:
the frame reassembler (`BleService.processBuffer`), the command encoder
(`BleService.createCommand`), the variant detector and field decoder
(`DeviceDetailScreen.handleData`, `bufferToAscii`, `readUInt32LE`), the
robust retry loop (`sendRobustCommand`) and the transport error handling
of `BleService.sendCommand` / `connect` / `disconnect`.

Bytes are modelled as `Nat`; Node `Buffer`s as `List Nat`.  Where JavaScript
32-bit signed semantics matter (`readUInt32LE`), the embedding tracks them
exactly via the 32-bit bit pattern.
-/

namespace JKTool

/-! ## Frame reassembler (`BleService.processBuffer`, `src/App.tsx` 316-338)

The accumulation buffer is a byte list.  The notification callback
(`src/App.tsx` 297-301) appends the arriving chunk and then runs
`processBuffer`, which repeatedly searches for the 4-byte header
`55 AA EB 90`, drops any junk before it, and emits 300-byte frames
while the buffer is long enough. -/

/-- The inbound frame header `0x55 0xAA 0xEB 0x90`. -/
def header : List Nat := [0x55, 0xAA, 0xEB, 0x90]

/-- `beginsWith pat l` is true when `pat` is an initial segment of `l`
(the semantics of JavaScript `String.startsWith`, and the building block
of `Buffer.indexOf`). -/
def beginsWith : List Nat → List Nat → Bool
  | [], _ => true
  | _ :: _, [] => false
  | p :: ps, x :: xs => (p == x) && beginsWith ps xs

/-- Index of the first occurrence of `header` in a buffer
(`Buffer.indexOf(headerSequence)`; `none` models `-1`). -/
def findHeader : List Nat → Option Nat
  | [] => none
  | x :: xs =>
    if beginsWith header (x :: xs) then some 0
    else (findHeader xs).map (fun n => n + 1)

/-- An emitted inbound frame: `this.emit('data', { type: frameType, data: frame })`,
with `kind = buffer[4]` and `data = buffer.slice(0, 300)`. -/
structure InboundFrame where
  kind : Nat
  data : List Nat
deriving DecidableEq, Repr

/-- Fuelled version of the `processBuffer` loop.  Each iteration of the
`while` loop in the source either terminates or removes at least 300 bytes
from the buffer, so `buf.length + 1` fuel always suffices (see
`processBufferF_eq_processBuffer`). -/
def processBufferF : Nat → List Nat → List InboundFrame × List Nat
  | 0, buf => ([], buf)
  | fuel + 1, buf =>
    match findHeader buf with
    | none => ([], buf)
    | some i =>
      let b := buf.drop i
      if b.length < 300 then ([], b)
      else
        let r := processBufferF fuel (b.drop 300)
        (⟨b.getD 4 0, b.take 300⟩ :: r.1, r.2)

/-- `BleService.processBuffer`: returns the list of emitted frames (in
emission order) together with the residual accumulation buffer. -/
def processBuffer (buf : List Nat) : List InboundFrame × List Nat :=
  processBufferF (buf.length + 1) buf

/-- One notification callback delivery: append the chunk to the
accumulation buffer, then run `processBuffer` (`src/App.tsx` 297-301). -/
def feed (st chunk : List Nat) : List InboundFrame × List Nat :=
  processBuffer (st ++ chunk)

/-- Feed a list of chunks one after the other, collecting all emitted
frames and the final accumulation buffer. -/
def feedAll : List Nat → List (List Nat) → List InboundFrame × List Nat
  | st, [] => ([], st)
  | st, ch :: rest =>
    let r := feed st ch
    let r2 := feedAll r.2 rest
    (r.1 ++ r2.1, r2.2)

/-! ### Basic list facts used about `beginsWith` and `findHeader` -/

theorem beginsWith_length_le {p l : List Nat} (h : beginsWith p l = true) :
    p.length ≤ l.length := by
  induction p generalizing l with
  | nil => exact Nat.zero_le _
  | cons a ps ih =>
    cases l with
    | nil => simp [beginsWith] at h
    | cons x xs =>
      simp only [beginsWith, Bool.and_eq_true] at h
      simpa using Nat.succ_le_succ (ih h.2)

theorem beginsWith_append {p l : List Nat} (c : List Nat)
    (h : beginsWith p l = true) : beginsWith p (l ++ c) = true := by
  induction p generalizing l with
  | nil => simp [beginsWith]
  | cons a ps ih =>
    cases l with
    | nil => simp [beginsWith] at h
    | cons x xs =>
      simp only [beginsWith, Bool.and_eq_true] at h
      simp only [List.cons_append, beginsWith, Bool.and_eq_true]
      exact ⟨h.1, ih h.2⟩

theorem beginsWith_append_false {p l : List Nat} (c : List Nat)
    (h : beginsWith p l = false) (hlen : p.length ≤ l.length) :
    beginsWith p (l ++ c) = false := by
  induction p generalizing l with
  | nil => simp [beginsWith] at h
  | cons a ps ih =>
    cases l with
    | nil => simp at hlen
    | cons x xs =>
      simp only [beginsWith, Bool.and_eq_false_iff] at h
      simp only [List.cons_append, beginsWith, Bool.and_eq_false_iff]
      rcases h with h | h
      · exact Or.inl h
      · exact Or.inr (ih h (by simpa using Nat.le_of_succ_le_succ hlen))

theorem findHeader_bound {l : List Nat} {i : Nat} (h : findHeader l = some i) :
    i + 4 ≤ l.length := by
  induction l generalizing i with
  | nil => simp [findHeader] at h
  | cons x xs ih =>
    simp only [findHeader] at h
    split at h
    · next hb =>
      have hlen := beginsWith_length_le hb
      simp only [Option.some.injEq] at h
      subst h
      simpa [header] using hlen
    · next hb =>
      rcases Option.map_eq_some'.mp h with ⟨j, hj, rfl⟩
      have := ih hj
      simp only [List.length_cons]
      omega

theorem findHeader_beginsWith {l : List Nat} {i : Nat}
    (h : findHeader l = some i) : beginsWith header (l.drop i) = true := by
  induction l generalizing i with
  | nil => simp [findHeader] at h
  | cons x xs ih =>
    simp only [findHeader] at h
    split at h
    · next hb =>
      simp only [Option.some.injEq] at h
      subst h
      simpa using hb
    · next hb =>
      rcases Option.map_eq_some'.mp h with ⟨j, hj, rfl⟩
      simpa using ih hj

theorem findHeader_of_beginsWith {l : List Nat}
    (h : beginsWith header l = true) : findHeader l = some 0 := by
  cases l with
  | nil => simp [beginsWith, header] at h
  | cons x xs => simp [findHeader, h]

theorem findHeader_append {l : List Nat} {i : Nat} (c : List Nat)
    (h : findHeader l = some i) : findHeader (l ++ c) = some i := by
  induction l generalizing i with
  | nil => simp [findHeader] at h
  | cons x xs ih =>
    simp only [findHeader] at h
    split at h
    · next hb =>
      simp only [Option.some.injEq] at h
      subst h
      have hb2 : beginsWith header (x :: (xs ++ c)) = true := by
        have := beginsWith_append c hb
        simpa using this
      simp only [List.cons_append, findHeader, List.append_eq, hb2, if_true]
    · next hb =>
      rcases Option.map_eq_some'.mp h with ⟨j, hj, rfl⟩
      have hbf : beginsWith header (x :: xs) = false := by
        simpa using hb
      have hlen : header.length ≤ (x :: xs).length := by
        have := findHeader_bound hj
        simp only [List.length_cons, header, List.length_cons, List.length_nil]
        omega
      have hb' : beginsWith header (x :: (xs ++ c)) = false := by
        have := beginsWith_append_false c (l := x :: xs) hbf hlen
        simpa using this
      simp only [List.cons_append, findHeader, List.append_eq, hb', if_false,
        Bool.false_eq_true, ih hj, Option.map_some']

/-! ### Fuel elimination: `processBufferF` is fuel-insensitive once the fuel
exceeds the buffer length, since every loop iteration consumes at least
300 bytes. -/

theorem processBufferF_mono : ∀ (f g : Nat) (buf : List Nat),
    buf.length < f → buf.length < g →
    processBufferF f buf = processBufferF g buf := by
  intro f
  induction f with
  | zero => intro g buf hf _; omega
  | succ f ih =>
    intro g buf hf hg
    cases g with
    | zero => omega
    | succ g =>
      simp only [processBufferF]
      cases hfind : findHeader buf with
      | none => rfl
      | some i =>
        simp only
        by_cases hlt : (buf.drop i).length < 300
        · have hlt2 : buf.length - i < 300 := by simpa using hlt
          simp [hlt, hlt2]
        · have hlen : ((buf.drop i).drop 300).length < f ∧
              ((buf.drop i).drop 300).length < g := by
            simp only [List.length_drop] at hlt ⊢
            omega
          simp only [hlt, if_false, ih g ((buf.drop i).drop 300) hlen.1 hlen.2]

theorem processBufferF_eq_processBuffer {f : Nat} {buf : List Nat}
    (h : buf.length < f) : processBufferF f buf = processBuffer buf :=
  processBufferF_mono f (buf.length + 1) buf h (Nat.lt_succ_self _)

/-- One-step unfolding of `processBuffer`, mirroring one iteration of the
`while` loop of the source. -/
theorem processBuffer_step (buf : List Nat) :
    processBuffer buf =
      match findHeader buf with
      | none => ([], buf)
      | some i =>
        let b := buf.drop i
        if b.length < 300 then ([], b)
        else
          let r := processBuffer (b.drop 300)
          (⟨b.getD 4 0, b.take 300⟩ :: r.1, r.2) := by
  conv_lhs => rw [processBuffer]
  simp only [processBufferF]
  cases hfind : findHeader buf with
  | none => rfl
  | some i =>
    simp only
    by_cases hlt : (buf.drop i).length < 300
    · have hlt2 : buf.length - i < 300 := by simpa using hlt
      simp [hlt, hlt2]
    · have hlen : ((buf.drop i).drop 300).length < buf.length := by
        simp only [List.length_drop] at hlt ⊢
        omega
      simp only [hlt, if_false, processBufferF_eq_processBuffer hlen]

/-- Dropping the junk before the first header occurrence does not change
the result of `processBuffer` (resynchronization is harmless). -/
theorem processBuffer_drop_first {buf : List Nat} {i : Nat}
    (h : findHeader buf = some i) :
    processBuffer buf = processBuffer (buf.drop i) := by
  have hb : beginsWith header (buf.drop i) = true := findHeader_beginsWith h
  rw [processBuffer_step buf, processBuffer_step (buf.drop i),
    h, findHeader_of_beginsWith hb]
  simp

/-! ### Compositionality of the reassembler

Processing `buf ++ c` yields the frames of `buf` followed by the frames
obtained by feeding `c` to the residual buffer of `buf`.  This is the key
fact behind chunking-invariance. -/

theorem processBuffer_append : ∀ (buf c : List Nat),
    processBuffer (buf ++ c) =
      ((processBuffer buf).1 ++ (processBuffer ((processBuffer buf).2 ++ c)).1,
       (processBuffer ((processBuffer buf).2 ++ c)).2) := by
  suffices H : ∀ (n : Nat) (buf c : List Nat), buf.length ≤ n →
      processBuffer (buf ++ c) =
        ((processBuffer buf).1 ++ (processBuffer ((processBuffer buf).2 ++ c)).1,
         (processBuffer ((processBuffer buf).2 ++ c)).2) by
    intro buf c
    exact H buf.length buf c (Nat.le_refl _)
  intro n
  induction n with
  | zero =>
    intro buf c h
    have hbuf : buf = [] := List.eq_nil_of_length_eq_zero (Nat.le_zero.mp h)
    subst hbuf
    have h0 : processBuffer [] = ([], []) := rfl
    simp [h0]
  | succ n ih =>
    intro buf c h
    cases hfind : findHeader buf with
    | none =>
      have hA : processBuffer buf = ([], buf) := by
        rw [processBuffer_step buf, hfind]
      simp [hA]
    | some i =>
      have hbw : beginsWith header (buf.drop i) = true := findHeader_beginsWith hfind
      have hile : i + 4 ≤ buf.length := findHeader_bound hfind
      have hfind2 : findHeader (buf ++ c) = some i := findHeader_append c hfind
      have hdrop : (buf ++ c).drop i = buf.drop i ++ c :=
        List.drop_append_of_le_length (by omega)
      by_cases hlt : (buf.drop i).length < 300
      · have hA : processBuffer buf = ([], buf.drop i) := by
          have hlt2 : buf.length - i < 300 := by simpa using hlt
          rw [processBuffer_step buf, hfind]
          simp [hlt, hlt2]
        have hL : processBuffer (buf ++ c) = processBuffer (buf.drop i ++ c) := by
          rw [processBuffer_drop_first hfind2, hdrop]
        rw [hL, hA]
        simp
      · have hble : 300 ≤ (buf.drop i).length := Nat.le_of_not_lt hlt
        have hstep : processBuffer buf =
            (⟨(buf.drop i).getD 4 0, (buf.drop i).take 300⟩ ::
                (processBuffer ((buf.drop i).drop 300)).1,
              (processBuffer ((buf.drop i).drop 300)).2) := by
          rw [processBuffer_step buf, hfind]
          simp only [hlt, if_false]
        have hbc : findHeader (buf.drop i ++ c) = some 0 :=
          findHeader_of_beginsWith (beginsWith_append c hbw)
        have hlen2 : ¬ (buf.drop i ++ c).length < 300 := by
          simp only [List.length_append]
          omega
        have hstepL : processBuffer (buf ++ c) =
            (⟨(buf.drop i).getD 4 0, (buf.drop i).take 300⟩ ::
                (processBuffer ((buf.drop i).drop 300 ++ c)).1,
              (processBuffer ((buf.drop i).drop 300 ++ c)).2) := by
          rw [processBuffer_drop_first hfind2, hdrop,
            processBuffer_step (buf.drop i ++ c), hbc]
          simp only [List.drop_zero, hlen2, if_false]
          rw [List.getD_append _ _ _ _ (by omega),
            List.take_append_of_le_length hble,
            List.drop_append_of_le_length hble]
        have hihlen : ((buf.drop i).drop 300).length ≤ n := by
          simp only [List.length_drop] at hble ⊢
          omega
        have hrec := ih ((buf.drop i).drop 300) c hihlen
        rw [hstepL, hrec, hstep]
        simp

/-- The residual buffer left by `processBuffer` is a fixed point: running
`processBuffer` on it again emits nothing and leaves it unchanged. -/
theorem processBuffer_residual_fixed (buf : List Nat) :
    processBuffer ((processBuffer buf).2) = ([], (processBuffer buf).2) := by
  have h := processBuffer_append buf []
  simp only [List.append_nil] at h
  have h1 : (processBuffer buf).1 =
      (processBuffer buf).1 ++ (processBuffer ((processBuffer buf).2)).1 := by
    have := congrArg Prod.fst h
    simpa using this
  have h2 : (processBuffer buf).2 = (processBuffer ((processBuffer buf).2)).2 := by
    have := congrArg Prod.snd h
    simpa using this
  have hnil : (processBuffer ((processBuffer buf).2)).1 = [] := by
    have hlen := congrArg List.length h1
    simp only [List.length_append] at hlen
    have hz : (processBuffer ((processBuffer buf).2)).1.length = 0 := by omega
    exact List.eq_nil_of_length_eq_zero hz
  exact Prod.ext hnil h2.symm

/-- Feeding chunks one at a time from a quiescent start state is the same
as processing their concatenation in one go. -/
theorem feedAll_join (st : List Nat) (chunks : List (List Nat))
    (hst : processBuffer st = ([], st)) :
    feedAll st chunks = processBuffer (st ++ chunks.flatten) := by
  induction chunks generalizing st with
  | nil => simp [feedAll, hst]
  | cons ch rest ih =>
    have happ := processBuffer_append (st ++ ch) rest.flatten
    have hres := processBuffer_residual_fixed (st ++ ch)
    have ihr := ih ((processBuffer (st ++ ch)).2) hres
    simp only [feedAll, feed]
    rw [ihr, List.flatten_cons, ← List.append_assoc, happ]

theorem flatten_map_singleton (s : List Nat) :
    (s.map fun b => [b]).flatten = s := by
  induction s with
  | nil => rfl
  | cons a t ih => simp [ih]

/-- C1 (chunking-invariance of the Frame Reassembler): for every byte
stream, feeding the reassembler one byte at a time — each delivery appends
its chunk to the accumulation buffer and runs `processBuffer` — produces
exactly the same frames (same kinds, same payloads, same order) and the
same final buffer as feeding the whole stream as a single chunk, starting
from the empty buffer. -/
theorem frameReassembler_chunking_invariance (s : List Nat) :
    feedAll [] (s.map fun b => [b]) = processBuffer s := by
  have hnil : processBuffer ([] : List Nat) = ([], []) := rfl
  have h := feedAll_join [] (s.map fun b => [b]) hnil
  rw [h, List.nil_append, flatten_map_singleton]

/-- C9 (implicit invariant of the Frame Reassembler): when `processBuffer`
returns, no fully reassemblable frame remains — if the header occurs
anywhere in the residual buffer, its first occurrence is at offset 0 and
the residual is shorter than 300 bytes.  `processBuffer` reaches this
fixpoint within a single invocation. -/
theorem processBuffer_residual_invariant (buf : List Nat) (i : Nat)
    (h : findHeader (processBuffer buf).2 = some i) :
    i = 0 ∧ (processBuffer buf).2.length < 300 := by
  have hfix := processBuffer_residual_fixed buf
  have hstep := processBuffer_step ((processBuffer buf).2)
  rw [hfix, h] at hstep
  by_cases hlt : ((processBuffer buf).2.drop i).length < 300
  · simp only [hlt, if_true] at hstep
    have h2 : (processBuffer buf).2 = (processBuffer buf).2.drop i := by
      have := congrArg Prod.snd hstep
      simpa using this
    have hb := findHeader_bound h
    have hlen := congrArg List.length h2
    simp only [List.length_drop] at hlen
    have hi : i = 0 := by omega
    refine ⟨hi, ?_⟩
    rw [h2]
    exact hlt
  · simp only [hlt, if_false] at hstep
    have := congrArg Prod.fst hstep
    simp at this

/-- Witness for C9: the residual of processing a bare header is the header
itself, found at offset 0, with fewer than 300 bytes buffered. -/
theorem processBuffer_residual_invariant_witness :
    0 = 0 ∧ (processBuffer [0x55, 0xAA, 0xEB, 0x90]).2.length < 300 :=
  processBuffer_residual_invariant [0x55, 0xAA, 0xEB, 0x90] 0 (by decide)

/-! ## The spec's example scenario (C2) -/

set_option maxRecDepth 8000

/-- The exact input chunk named by the spec's example scenario:
10 junk bytes, a header, kind `0x02`, 294 zeros, a second header with kind
`0x03`, and 295 zeros.  Note the first header-to-header span is only
`4 + 1 + 294 = 299` bytes. -/
def exampleChunk : List Nat :=
  List.replicate 10 0 ++ [0x55, 0xAA, 0xEB, 0x90, 0x02] ++ List.replicate 294 0 ++
    [0x55, 0xAA, 0xEB, 0x90, 0x03] ++ List.replicate 295 0

/-- The same scenario with 295 zeros after the `0x02` kind byte, making the
first frame exactly 300 bytes. -/
def exampleChunkFixed : List Nat :=
  List.replicate 10 0 ++ [0x55, 0xAA, 0xEB, 0x90, 0x02] ++ List.replicate 295 0 ++
    [0x55, 0xAA, 0xEB, 0x90, 0x03] ++ List.replicate 295 0

/-- C2 counterexample: on the spec's exact example chunk the reassembler
emits only ONE frame (kind `0x02`; the 300th consumed byte is the `0x55` of
the second header), and 299 bytes remain buffered — not two frames and an
empty buffer as claimed. -/
theorem exampleChunk_emits_one_frame :
    (feed [] exampleChunk).1.map InboundFrame.kind = [0x02] ∧
    (feed [] exampleChunk).1.map InboundFrame.kind ≠ [0x02, 0x03] ∧
    (feed [] exampleChunk).2.length = 299 ∧
    (feed [] exampleChunk).2 ≠ [] := by decide

/-- C2 amended: with 295 zeros after the `0x02` kind byte (so that the
first frame is a full 300 bytes) the reassembler emits exactly two
frames with kinds `0x02` then `0x03` and the buffer ends empty. -/
theorem exampleChunkFixed_emits_two_frames :
    (feed [] exampleChunkFixed).1.map InboundFrame.kind = [0x02, 0x03] ∧
    (feed [] exampleChunkFixed).2 = [] := by decide

/-! ## Command encoder (`BleService.createCommand`, `src/App.tsx` 368-385) -/

/-- `BleService.createCommand`: builds the outbound frame
`AA 55 90 EB, opcode, payload length, payload`, zero-pads `while
(frame.length < 19)`, then appends `checksum & 0xFF` where `checksum` is
the sum of all bytes pushed so far.  The source returns
`Buffer.from(frame).toString('base64')`; we model the wire bytes, with
`Buffer.from`'s per-entry byte coercion (`% 256`).  Note the source never
checks `payload.length`, so an oversized payload yields an oversized
frame. -/
def createCommand (commandByte : Nat) (payload : List Nat) : List Nat :=
  let frame := [0xAA, 0x55, 0x90, 0xEB] ++ [commandByte, payload.length] ++ payload
  let padded := frame ++ List.replicate (19 - frame.length) 0
  (padded ++ [padded.sum % 256]).map (fun b => b % 256)

theorem map_mod_eq_self {l : List Nat} (h : ∀ b ∈ l, b < 256) :
    l.map (fun b => b % 256) = l := by
  induction l with
  | nil => rfl
  | cons a t ih =>
    simp only [List.map_cons]
    rw [Nat.mod_eq_of_lt (h a (by simp)), ih (fun b hb => h b (by simp [hb]))]

theorem getD_replicate_zero (n k : Nat) :
    (List.replicate n (0 : Nat)).getD k 0 = 0 := by
  induction n generalizing k with
  | zero => simp [List.getD]
  | succ m ih =>
    cases k with
    | zero => simp [List.replicate_succ]
    | succ k2 => simp only [List.replicate_succ, List.getD_cons_succ, ih k2]

/-- Normal form of `createCommand` for in-range inputs. -/
theorem createCommand_eq (op : Nat) (payload : List Nat)
    (hop : op < 256) (hlen : payload.length ≤ 13) (hp : ∀ b ∈ payload, b < 256) :
    createCommand op payload =
      [0xAA, 0x55, 0x90, 0xEB, op, payload.length] ++
        (payload ++ List.replicate (13 - payload.length) 0) ++
        [(0xAA + 0x55 + 0x90 + 0xEB + op + payload.length + payload.sum) % 256] := by
  simp only [createCommand]
  rw [map_mod_eq_self]
  · simp [List.append_assoc, Nat.add_comm, Nat.add_assoc, Nat.add_left_comm]
  · intro b hb
    simp at hb
    rcases hb with rfl | rfl | rfl | rfl | rfl | rfl | hmem | ⟨-, rfl⟩ | rfl
    · decide
    · decide
    · decide
    · decide
    · exact hop
    · omega
    · exact hp b hmem
    · decide
    · exact Nat.mod_lt _ (by decide)

/-- C3: for every opcode byte and every payload of at most 13 bytes,
`createCommand` produces exactly 20 bytes laid out as: bytes `[0..4)` =
`AA 55 90 EB`, byte 4 = opcode, byte 5 = payload length, bytes
`[6, 6+len)` = payload, zeros up to index 18, and byte 19 equal to the sum
of bytes `[0..19)` modulo 256. -/
theorem createCommand_layout (op : Nat) (payload : List Nat)
    (hop : op < 256) (hlen : payload.length ≤ 13) (hp : ∀ b ∈ payload, b < 256) :
    (createCommand op payload).length = 20 ∧
    (createCommand op payload).take 4 = [0xAA, 0x55, 0x90, 0xEB] ∧
    (createCommand op payload).getD 4 0 = op ∧
    (createCommand op payload).getD 5 0 = payload.length ∧
    ((createCommand op payload).drop 6).take payload.length = payload ∧
    (∀ j, 6 + payload.length ≤ j → j < 19 → (createCommand op payload).getD j 0 = 0) ∧
    (createCommand op payload).getD 19 0 =
      ((createCommand op payload).take 19).sum % 256 := by
  rw [createCommand_eq op payload hop hlen hp]
  refine ⟨?_, ?_, ?_, ?_, ?_, ?_, ?_⟩
  · simp [List.length_append]
    omega
  · simp
  · simp [List.getD_cons_succ, List.getD_cons_zero]
  · simp [List.getD_cons_succ, List.getD_cons_zero]
  · simp [List.take_append_of_le_length, List.take_of_length_le]
  · intro j h1 h2
    simp only [List.cons_append, List.nil_append]
    rw [show (0xAA : Nat) :: 0x55 :: 0x90 :: 0xEB :: op :: payload.length ::
        ((payload ++ List.replicate (13 - payload.length) 0) ++ _) =
        ([0xAA, 0x55, 0x90, 0xEB, op, payload.length] : List Nat) ++
        ((payload ++ List.replicate (13 - payload.length) 0) ++ _) from rfl]
    rw [List.getD_append_right _ _ _ _ (by simp; omega),
      List.append_assoc,
      List.getD_append_right _ _ _ _ (by simp; omega),
      List.getD_append _ _ _ _ (by simp; omega)]
    simp [getD_replicate_zero]
  · have hA : (([0xAA, 0x55, 0x90, 0xEB, op, payload.length] : List Nat) ++
        (payload ++ List.replicate (13 - payload.length) 0)).length = 19 := by
      simp
      omega
    rw [List.getD_append_right _ _ _ _ (by omega), hA,
      List.take_append_of_le_length (by omega),
      List.take_of_length_le (by omega)]
    simp [List.sum_append, Nat.add_comm, Nat.add_assoc, Nat.add_left_comm]

/-- Witness for C3 at opcode `0x96` with the one-byte payload `[0x01]`. -/
theorem createCommand_layout_witness :
    (createCommand 0x96 [0x01]).length = 20 ∧
    (createCommand 0x96 [0x01]).take 4 = [0xAA, 0x55, 0x90, 0xEB] ∧
    (createCommand 0x96 [0x01]).getD 4 0 = 0x96 ∧
    (createCommand 0x96 [0x01]).getD 5 0 = ([0x01] : List Nat).length ∧
    ((createCommand 0x96 [0x01]).drop 6).take ([0x01] : List Nat).length = [0x01] ∧
    (∀ j, 6 + ([0x01] : List Nat).length ≤ j → j < 19 →
      (createCommand 0x96 [0x01]).getD j 0 = 0) ∧
    (createCommand 0x96 [0x01]).getD 19 0 =
      ((createCommand 0x96 [0x01]).take 19).sum % 256 :=
  createCommand_layout 0x96 [0x01] (by decide) (by decide) (by decide)

/-- C4: `createCommand` does NOT reject an oversized payload.  Evaluated at
a 14-byte payload it still produces a frame — of 21 bytes, with the
checksum landing at index 20 instead of 19 — rather than failing; in
particular the result is never the 20-byte frame the wire format
requires. -/
theorem createCommand_oversized_payload :
    (createCommand 0x1D (List.replicate 14 1)).length = 21 ∧
    (createCommand 0x1D (List.replicate 14 1)).length ≠ 20 := by decide

/-! ## Variant detector (`DeviceDetailScreen.handleData`, type `0x03` branch,
`src/unnamed/part_000` 154-176, and `bufferToAscii`, lines 37-45) -/

/-- `bufferToAscii`: collect bytes as character codes, stopping at the
first null byte.  Strings are modelled as their character-code lists. -/
def bufferToAscii : List Nat → List Nat
  | [] => []
  | b :: rest => if b = 0 then [] else b :: bufferToAscii rest

/-- JavaScript `String.includes`: the pattern occurs contiguously. -/
def containsSeq (pat : List Nat) : List Nat → Bool
  | [] => pat.isEmpty
  | x :: xs => beginsWith pat (x :: xs) || containsSeq pat xs

/-- ASCII codes of `"JK_BD"`. -/
def strJKBD : List Nat := [74, 75, 95, 66, 68]

/-- ASCII codes of `"11."`. -/
def str11 : List Nat := [49, 49, 46]

/-- ASCII codes of `"JK_B2A"`. -/
def strJKB2A : List Nat := [74, 75, 95, 66, 50, 65]

/-- ASCII codes of `"32S"`. -/
def str32S : List Nat := [51, 50, 83]

/-- Vendor id: `bufferToAscii(data.slice(6, 6 + 16))`. -/
def vendorOf (data : List Nat) : List Nat := bufferToAscii ((data.drop 6).take 16)

/-- Firmware version: `bufferToAscii(data.slice(30, 30 + 8))`. -/
def swVerOf (data : List Nat) : List Nat := bufferToAscii ((data.drop 30).take 8)

/-- The protocol-offset logic of the `type === 0x03` branch of
`handleData`: guarded by `data.length >= 134`; extract vendor and firmware
strings and choose the offset (`none` models the guard failing, leaving
the offset unchanged). -/
def handleInfoOffset (data : List Nat) : Option Nat :=
  if 134 ≤ data.length then
    some (if beginsWith strJKBD (vendorOf data) || beginsWith str11 (swVerOf data) then 32
      else if beginsWith strJKB2A (vendorOf data) || containsSeq str32S (vendorOf data) then 16
      else 0)
  else none

/-- The variant-selection decision table exactly as the spec words it:
offset 32 if the vendor starts with `"JK_BD"` or the firmware starts with
`"11."`; else 16 if the vendor starts with `"JK_B2A"` or contains `"32S"`;
else 0 — first match wins. -/
def specVariantOffset (vendor fw : List Nat) : Nat :=
  if beginsWith strJKBD vendor || beginsWith str11 fw then 32
  else if beginsWith strJKB2A vendor || containsSeq str32S vendor then 16
  else 0

/-- A 300-byte device-info frame with the given vendor bytes at `[6,22)`
and firmware bytes at `[30,38)`, zero elsewhere. -/
def mkInfoFrame (vendor fw : List Nat) : List Nat :=
  List.replicate 6 0 ++ (vendor ++ List.replicate (16 - vendor.length) 0) ++
    List.replicate 8 0 ++ (fw ++ List.replicate (8 - fw.length) 0) ++
    List.replicate 262 0

/-- C5: on any device-info frame of length at least 134, the code's chosen
offset agrees with the spec's decision table applied to the extracted
null-terminated vendor (`[6,22)`) and firmware (`[30,38)`) strings; in
particular vendor `"JK_BD6.0"` selects 32, vendor `"JK_B2A32S"` selects
16 and the unrelated vendor `"ABC"` selects 0 (firmware all-zero in each
concrete frame). -/
theorem variantSelection_spec :
    (∀ data : List Nat, 134 ≤ data.length →
      handleInfoOffset data = some (specVariantOffset (vendorOf data) (swVerOf data))) ∧
    handleInfoOffset (mkInfoFrame [74, 75, 95, 66, 68, 54, 46, 48] []) = some 32 ∧
    handleInfoOffset (mkInfoFrame [74, 75, 95, 66, 50, 65, 51, 50, 83] []) = some 16 ∧
    handleInfoOffset (mkInfoFrame [65, 66, 67] []) = some 0 := by
  refine ⟨?_, by decide, by decide, by decide⟩
  intro data h
  simp [handleInfoOffset, specVariantOffset, h]

/-- Witness for C5: the decision-table equation at the concrete
`"JK_BD6.0"` info frame. -/
theorem variantSelection_spec_witness :
    handleInfoOffset (mkInfoFrame [74, 75, 95, 66, 68, 54, 46, 48] []) =
      some (specVariantOffset
        (vendorOf (mkInfoFrame [74, 75, 95, 66, 68, 54, 46, 48] []))
        (swVerOf (mkInfoFrame [74, 75, 95, 66, 68, 54, 46, 48] []))) :=
  variantSelection_spec.1 (mkInfoFrame [74, 75, 95, 66, 68, 54, 46, 48] []) (by decide)

/-! ## 32-bit field decoding (`readUInt32LE`, `src/unnamed/part_000` 47-50) -/

/-- Read a 32-bit pattern as a two's-complement signed integer
(JavaScript `ToInt32`). -/
def int32OfBits (m : Nat) : Int :=
  if m % 4294967296 < 2147483648 then ((m % 4294967296 : Nat) : Int)
  else ((m % 4294967296 : Nat) : Int) - 4294967296

/-- The 32-bit bit pattern of a JavaScript number (`ToUint32`). -/
def bitsOfInt32 (x : Int) : Nat := (x % 4294967296).toNat

/-- JavaScript `x << k` on 32-bit operands. -/
def jsShl32 (x : Int) (k : Nat) : Int := int32OfBits (bitsOfInt32 x * 2 ^ k)

/-- JavaScript `x | y` on 32-bit operands. -/
def jsOr32 (x y : Int) : Int := int32OfBits (Nat.lor (bitsOfInt32 x) (bitsOfInt32 y))

/-- `readUInt32LE` from the source:
`(buf[offset]) | (buf[offset + 1] << 8) | (buf[offset + 2] << 16) | (buf[offset + 3] << 24)`.
JavaScript bitwise operators work on SIGNED 32-bit integers, which this
embedding preserves; an out-of-range read (`undefined`) coerces to 0,
modelled by `getD _ 0`. -/
def readUInt32LE (buf : List Nat) (offset : Nat) : Int :=
  jsOr32 (jsOr32 (jsOr32 ((buf.getD offset 0 : Nat) : Int)
    (jsShl32 ((buf.getD (offset + 1) 0 : Nat) : Int) 8))
    (jsShl32 ((buf.getD (offset + 2) 0 : Nat) : Int) 16))
    (jsShl32 ((buf.getD (offset + 3) 0 : Nat) : Int) 24)

/-- C6 (code bug): `readUInt32LE` does not decode an unsigned 32-bit
little-endian integer.  On the 4-byte sequence `00 00 00 80` the unsigned
value is `16777216 * 128 = 2147483648`, but the code — whose `|` and `<<`
operate on signed 32-bit integers — returns `-2147483648`. -/
theorem readUInt32LE_sign_bug :
    readUInt32LE [0, 0, 0, 128] 0 = -2147483648 ∧
    (0 : Int) + 256 * 0 + 65536 * 0 + 16777216 * 128 = 2147483648 ∧
    readUInt32LE [0, 0, 0, 128] 0 ≠
      (0 : Int) + 256 * 0 + 65536 * 0 + 16777216 * 128 := by decide

/-! ## Robust control command (`sendRobustCommand`, `src/unnamed/part_000`
271-304)

Each iteration of the `for (let i = 0; i < 3; i++)` loop sends the control
command, waits 3500 ms, forces a status refresh, waits 1000 ms, and then
compares `currentStatusRef.current` (a `boolean | null`) with the target.
The wall-clock waits and the asynchronous arrival of status frames are
abstracted into the per-attempt outcome `att i`: either some awaited step
inside the `try` block threw (`Except.error`, caught and logged by the
`catch`), or the attempt reached its final check and observed a status
(`Except.ok`, with `Option Bool` for `boolean | null`). -/

/-- `const targetBool = value === 1`. -/
def targetOf (value : Nat) : Bool := value == 1

/-- Whether one attempt ends the loop: a thrown attempt never matches; a
completed attempt matches when the observed status strictly equals the
target (`null === target` is false). -/
def attemptHit (target : Bool) : Except Unit (Option Bool) → Bool
  | Except.error _ => false
  | Except.ok obs => obs == some target

/-- `sendRobustCommand`: up to 3 attempts, returning `true` at the first
attempt whose observation matches `value === 1`, and `false` — not an
exception — when all 3 attempts miss or throw. -/
def sendRobustCommand (att : Nat → Except Unit (Option Bool)) (value : Nat) : Bool :=
  attemptHit (targetOf value) (att 0) ||
    (attemptHit (targetOf value) (att 1) || attemptHit (targetOf value) (att 2))

/-- C7: `sendRobustCommand` makes at most 3 attempts; it returns `true`
exactly when some attempt `i < 3` runs to its check and observes the
requested target, and otherwise returns `false` — a `Bool`, never a thrown
error, even when individual attempts raise (they are caught inside the
loop). -/
theorem sendRobustCommand_spec (att : Nat → Except Unit (Option Bool)) (value : Nat) :
    sendRobustCommand att value = true ↔
      ∃ i, i < 3 ∧ att i = Except.ok (some (targetOf value)) := by
  have hhit : ∀ r : Except Unit (Option Bool),
      attemptHit (targetOf value) r = true ↔ r = Except.ok (some (targetOf value)) := by
    intro r
    cases r with
    | error e => simp [attemptHit]
    | ok obs => simp [attemptHit]
  constructor
  · intro h
    simp only [sendRobustCommand, Bool.or_eq_true] at h
    rcases h with h | h | h
    · exact ⟨0, by omega, (hhit _).mp h⟩
    · exact ⟨1, by omega, (hhit _).mp h⟩
    · exact ⟨2, by omega, (hhit _).mp h⟩
  · rintro ⟨i, hi, h⟩
    simp only [sendRobustCommand, Bool.or_eq_true]
    interval_cases i
    · exact Or.inl ((hhit _).mpr h)
    · exact Or.inr (Or.inl ((hhit _).mpr h))
    · exact Or.inr (Or.inr ((hhit _).mpr h))

/-! ## Transport error handling (`BleService.sendCommand` 387-400,
`connect` 271-314, `disconnect` 340-366 of `src/App.tsx`)

Each method is modelled as a function of the outcome of its underlying
transport operation(s), returning how the method itself resolves.  Error
messages are character-code lists so that the source's
`error.message.includes('already connected')` test can be expressed. -/

/-- ASCII codes of `"already connected"`. -/
def strAlreadyConnected : List Nat :=
  [97, 108, 114, 101, 97, 100, 121, 32, 99, 111, 110, 110, 101, 99, 116, 101, 100]

/-- `sendCommand`: a write failure is logged (`TX Error`) and rethrown
(`throw e`). -/
def sendCommandResult (writeRes : Except (List Nat) Unit) : Except (List Nat) Unit :=
  match writeRes with
  | Except.ok _ => Except.ok ()
  | Except.error e => Except.error e

/-- `connect`: a failure whose message includes `'already connected'` is
treated as success (`return` — "Already connected, resuming..."); any
other failure is logged and rethrown (`throw error`). -/
def connectResult (transportRes : Except (List Nat) Unit) : Except (List Nat) Unit :=
  match transportRes with
  | Except.ok _ => Except.ok ()
  | Except.error msg =>
    if containsSeq strAlreadyConnected msg then Except.ok () else Except.error msg

/-- `disconnect`: an `isDeviceConnected` failure reports not-connected
(that helper catches and returns `false`), which takes the early
successful return; a `cancelDeviceConnection` failure is caught and only
logged (`Disconnect Warning`).  The method itself always resolves. -/
def disconnectResult (isConnRes : Except (List Nat) Bool)
    (cancelRes : Except (List Nat) Unit) : Except (List Nat) Unit :=
  match isConnRes with
  | Except.error _ => Except.ok ()
  | Except.ok false => Except.ok ()
  | Except.ok true =>
    match cancelRes with
    | Except.ok _ => Except.ok ()
    | Except.error _ => Except.ok ()

/-- C8 counterexample: a transport failure during `cancelDeviceConnection`
(here with message `"GATT"`) is NOT surfaced by `disconnect` — the method
still resolves successfully, so disconnect transport errors are silently
swallowed rather than propagated to the caller. -/
theorem disconnect_swallows_transport_error :
    disconnectResult (Except.ok true) (Except.error [71, 65, 84, 84]) =
      Except.ok () := rfl

/-- C8 amended: write failures in `sendCommand` are rethrown; connect
failures are rethrown unless the message contains `"already connected"`,
which is swallowed and treated as an established connection; and
`disconnect` never propagates a transport failure — it always resolves
successfully whatever the transport does. -/
theorem transport_error_propagation :
    (∀ r : Except (List Nat) Unit, sendCommandResult r = r) ∧
    (∀ msg : List Nat, connectResult (Except.error msg) =
      if containsSeq strAlreadyConnected msg then Except.ok ()
      else Except.error msg) ∧
    (∀ (ic : Except (List Nat) Bool) (cr : Except (List Nat) Unit),
      disconnectResult ic cr = Except.ok ()) := by
  refine ⟨?_, ?_, ?_⟩
  · intro r
    cases r <;> rfl
  · intro msg
    rfl
  · intro ic cr
    rcases ic with e | b
    · rfl
    · cases b
      · rfl
      · rcases cr with e2 | u <;> rfl

/-! ## Authorization gate of `sendControlCommand` (`src/App.tsx` 410-419)

`sendControlCommand` first checks `!this.isAuthorized &&
this.setupPasscode`; a JavaScript string is truthy iff non-empty, so an
empty stored setup passcode skips `sendAuthorization` entirely.  The
stored passcode comes from `setSetupPasscode` (`src/App.tsx` 150-152),
fed by the device-info handler (`src/unnamed/part_000` 156-163) with
`bufferToAscii(data.slice(118, 118 + 16))`. -/

/-- The `BleService` state consulted by `sendControlCommand`. -/
structure ControlState where
  isAuthorized : Bool
  setupPasscode : List Nat
deriving DecidableEq, Repr

/-- The `(commandByte, payload)` writes issued by `sendControlCommand`, in
order: the optional authorization command `0x05` with the passcode bytes
(`sendAuthorization`), then the control command `(register, [value])`,
then the status refresh `0x96`. -/
def sendControlCommandSends (st : ControlState) (register value : Nat) :
    List (Nat × List Nat) :=
  (if !st.isAuthorized && !st.setupPasscode.isEmpty
    then [(0x05, st.setupPasscode)] else [])
    ++ [(register, [value]), (0x96, [])]

/-- C10: with an empty stored setup passcode (e.g. a setup-passcode field
beginning with a null byte, which `bufferToAscii` turns into the empty
string) an unauthorized session sends the control command without ever
sending the authorization command `0x05`; authorization is attempted
exactly when the session is unauthorized AND the stored passcode is
non-empty. -/
theorem sendControlCommand_passcode_gate :
    (∀ (st : ControlState) (r v : Nat), st.setupPasscode = [] →
      sendControlCommandSends st r v = [(r, [v]), (0x96, [])]) ∧
    (∀ (st : ControlState) (r v : Nat),
      st.isAuthorized = false → st.setupPasscode ≠ [] →
      sendControlCommandSends st r v =
        [(0x05, st.setupPasscode), (r, [v]), (0x96, [])]) ∧
    (∀ rest : List Nat, bufferToAscii (0 :: rest) = []) := by
  refine ⟨?_, ?_, ?_⟩
  · intro st r v h
    simp [sendControlCommandSends, h]
  · intro st r v hauth hne
    have hie : st.setupPasscode.isEmpty = false := by
      cases hsp : st.setupPasscode with
      | nil => exact absurd hsp hne
      | cons a t => rfl
    simp [sendControlCommandSends, hauth, hie]
  · intro rest
    simp [bufferToAscii]

/-- Witness for C10: an unauthorized session with empty stored passcode
sends the concrete control write `0x1D := 0` and the status refresh, and
nothing else. -/
theorem sendControlCommand_passcode_gate_witness :
    sendControlCommandSends ⟨false, []⟩ 0x1D 0 = [(0x1D, [0]), (0x96, [])] :=
  sendControlCommand_passcode_gate.1 ⟨false, []⟩ 0x1D 0 rfl

end JKTool
